import Mathlib

/-!
A shallow embedding of the `ImageProcessor` React component
(`src/unnamed/part_000`): a browser widget that uploads an image,
compresses it, removes its background via an external capability,
and lets the user download or delete the result.

Modelling choices:

* The component is embedded as an event-driven state machine.  One user
  event (file selection, process click, delete click, a timer tick, a
  progress callback, a promise continuation) is one `step`.  All state
  updates performed synchronously by a handler, together with the React
  effect teardown that the handler's `setImage` schedules, form a single
  transition.
* Object URLs (`URL.createObjectURL` / `URL.revokeObjectURL`) are modelled
  as freshly allocated `Nat` identifiers; the ghost field `live` records
  the identifiers that have been created and not yet revoked.  Revoking
  an identifier removes every occurrence; revoking one that is not live
  is a no-op, as in the browser.  Object-URL strings are never empty, so
  the truthiness guards `if (image.originalUrl)` always pass for a
  created URL; identifiers therefore start at 1 and the guards are
  modelled as unconditional revocation.
* `removeBackground` is an awaited external call that the component never
  cancels; the ghost field `pendingRuns` counts the calls whose
  continuation (the success/failure path of `handleProcess`) has not yet
  executed.  The continuation is the event `Event.processEnd ok`.
* The component registers `useEffect(() => cleanup, [cleanup])` with
  `cleanup = useCallback(..., [image])`.  Hence whenever a handler stores
  a fresh object in the `image` state, React tears down the previous
  effect, i.e. runs `cleanup` closed over the image value from before the
  event.  When a functional update returns the identical value
  (`Object.is` bailout: the updater returned `null` while the state was
  already `null`), no teardown runs.  The teardown is the function
  `cleanup` below, applied at the end of the transitions that replace
  `image` with a fresh object.
* Toaster notifications are recorded in the ghost field `out` (most
  recent first).
-/

/-- A candidate file: `File` objects carry a name, a MIME type string and
a byte size. -/
structure FileV where
  name : String
  type : String
  size : Nat
deriving DecidableEq, Repr

/-- A binary blob; only its MIME type is relevant to the component. -/
structure Blob where
  type : String
deriving DecidableEq, Repr

/-- The `status` field of `ProcessedImage`
(`'pending' | 'processing' | 'completed' | 'failed'`). -/
inductive Status where
  | pending
  | processing
  | completed
  | failed
deriving DecidableEq, Repr

/-- The `ProcessedImage` interface: the single image session.
`originalUrl` and `processedUrl` are object-URL identifiers. -/
structure ProcessedImage where
  original : Option FileV
  originalUrl : Nat
  processed : Option Blob
  processedUrl : Option Nat
  name : String
  status : Status
deriving DecidableEq, Repr

/-- The toaster messages the component can emit. -/
inductive ToastMsg where
  | invalidType
  | tooLarge
  | compressionFailure
  | processSuccess
  | processFailed
  | deleteSuccess
deriving DecidableEq, Repr

/-- The component's state: the `useState` hooks (`image`, `isProcessing`,
`progress`, `isDragging`, `timeLeft`), the refs (`timerRef` as
`timerActive`, the file input's value as `fileInputVal`), and the ghost
fields `pendingRuns` (awaited external calls whose continuation is still
pending), `nextUrl` / `live` (object-URL allocator and live set) and
`out` (notifications). -/
structure CompState where
  image : Option ProcessedImage
  isProcessing : Bool
  progress : Int
  isDragging : Bool
  timeLeft : Nat
  timerActive : Bool
  fileInputVal : String
  pendingRuns : Nat
  nextUrl : Nat
  live : List Nat
  out : List ToastMsg
deriving DecidableEq, Repr

/-- The initial state: `useState(null)`, `useState(false)`, `useState(0)`,
`useState(false)`, `useState(20)`; no timer, no pending calls, no URLs. -/
def init : CompState :=
  { image := none, isProcessing := false, progress := 0, isDragging := false
    timeLeft := 20, timerActive := false, fileInputVal := ""
    pendingRuns := 0, nextUrl := 1, live := [], out := [] }

namespace SETTINGS

/-- `SETTINGS.upload.maxSize = 10 * 1024 * 1024`. -/
def maxSize : Nat := 10 * 1024 * 1024

/-- `SETTINGS.upload.types`. -/
def types : List String := ["image/jpeg", "image/png", "image/webp"]

/-- `SETTINGS.processing.format`. -/
def format : String := "image/png"

end SETTINGS

/-- `URL.createObjectURL`: allocates a fresh identifier and makes it live. -/
def createObjectURL (st : CompState) : Nat × CompState :=
  (st.nextUrl,
   { st with nextUrl := st.nextUrl + 1, live := st.nextUrl :: st.live })

/-- `URL.revokeObjectURL`: removes the identifier from the live set
(a no-op when it is not live). -/
def revokeObjectURL (u : Nat) (st : CompState) : CompState :=
  { st with live := st.live.filter (fun v => v ≠ u) }

/-- The `cleanup` callback (lines 61-77), closed over the image value
`img`: revokes the captured image's object URLs, clears the countdown
timer, and resets `progress`, `timeLeft` and `isProcessing`.  It runs as
the React effect teardown whenever the `image` state is replaced. -/
def cleanup (img : Option ProcessedImage) (st : CompState) : CompState :=
  let st1 :=
    match img with
    | none => st
    | some i =>
        let sta := revokeObjectURL i.originalUrl st
        match i.processedUrl with
        | some u => revokeObjectURL u sta
        | none => sta
  { st1 with timerActive := false, progress := 0, timeLeft := 0,
             isProcessing := false }

/-- `handleFileChange` (lines 83-130).  The picker stores the chosen
file's name in the input control; then the MIME type is checked against
`SETTINGS.upload.types`, the size against `SETTINGS.upload.maxSize`
(strict `>`), and the file is handed to the external compression
capability, whose outcome is the parameter `comp` (`none` = the call
threw).  On success a fresh object URL is created and a fresh session
replaces `image`; the scheduled effect teardown then runs `cleanup` over
the previous image value.  On any failure an error toast is emitted and
no state besides the input control changes. -/
def handleFileChange (f : FileV) (comp : Option FileV) (st : CompState) :
    CompState :=
  let st0 := { st with fileInputVal := f.name }
  if f.type ∈ SETTINGS.types then
    if SETTINGS.maxSize < f.size then
      { st0 with out := ToastMsg.tooLarge :: st0.out }
    else
      match comp with
      | none => { st0 with out := ToastMsg.compressionFailure :: st0.out }
      | some cf =>
          let old := st0.image
          let p := createObjectURL st0
          let st1 := { p.2 with image := some (
            { original := some cf, originalUrl := p.1, processed := none,
              processedUrl := none, name := f.name, status := Status.pending }
            : ProcessedImage) }
          cleanup old st1
  else
    { st0 with out := ToastMsg.invalidType :: st0.out }

/-- `handleProcess` up to its first suspension point (lines 182-191): the
guard `if (!image?.original || isProcessing) return`, then
`setIsProcessing(true)`, `setProgress(0)`, `setTimeLeft(20)`, and the
synchronous prefix of `processImage` (which re-sets `timeLeft` and
`progress` and starts the countdown interval) before `removeBackground`
is awaited; the awaited call becomes a pending run. -/
def handleProcess (st : CompState) : CompState :=
  match st.image with
  | none => st
  | some img =>
      if img.original.isNone ∨ st.isProcessing then st
      else
        { st with isProcessing := true, progress := 0, timeLeft := 20,
                  timerActive := true, pendingRuns := st.pendingRuns + 1 }

/-- The continuation of one awaited `processImage` call
(lines 164-179 and 192-229), with outcome `ok`.

On success: the timer is cleared, a fresh object URL wraps the
PNG-typed result blob, and the functional `setImage` update revokes the
previous `processedUrl` and stores the result with status `completed` —
against whatever image is current, or against `null` (in which case the
updater returns `null`, React bails out, no teardown runs, and the fresh
URL is orphaned).  On failure: `processImage`'s catch clears the timer
and resets `timeLeft` and `progress`, then `handleProcess`'s catch sets
the current image's status to `failed` and emits an error toast.  Either
way the `finally` block resets `isProcessing`, `timeLeft`, `progress`
and the timer, and a non-bailed `setImage` schedules the effect teardown
(`cleanup` over the pre-event image). -/
def handleProcessEnd (ok : Bool) (st : CompState) : CompState :=
  if st.pendingRuns = 0 then st
  else
    let st0 := { st with pendingRuns := st.pendingRuns - 1 }
    if ok then
      let p := createObjectURL st0
      match st0.image with
      | none =>
          { p.2 with isProcessing := false, timeLeft := 0, progress := 0,
                     timerActive := false,
                     out := ToastMsg.processSuccess :: p.2.out }
      | some prev =>
          let sta :=
            match prev.processedUrl with
            | some pu => revokeObjectURL pu p.2
            | none => p.2
          let stb := { sta with
            image := some ({ prev with
              processed := some ({ type := SETTINGS.format } : Blob),
              processedUrl := some p.1, status := Status.completed }),
            isProcessing := false, timeLeft := 0, progress := 0,
            timerActive := false,
            out := ToastMsg.processSuccess :: sta.out }
          cleanup (some prev) stb
    else
      let sta := { st0 with timerActive := false, timeLeft := 0, progress := 0 }
      match sta.image with
      | none =>
          { sta with isProcessing := false,
                     out := ToastMsg.processFailed :: sta.out }
      | some prev =>
          let stb := { sta with
            image := some ({ prev with status := Status.failed }),
            isProcessing := false,
            out := ToastMsg.processFailed :: sta.out }
          cleanup (some prev) stb

/-- One tick of the countdown interval (lines 138-146): decrement
`timeLeft`; at `prev <= 1` the interval clears itself and reports 0. -/
def tickTimer (st : CompState) : CompState :=
  if st.timerActive then
    if st.timeLeft ≤ 1 then { st with timeLeft := 0, timerActive := false }
    else { st with timeLeft := st.timeLeft - 1 }
  else st

/-- The percentage computed by the progress callback (line 154):
`Math.floor(p * 100)`. -/
def progressValue (p : ℚ) : ℤ := ⌊p * 100⌋

/-- The progress callback supplied to `removeBackground` (lines 153-157):
while a call is in flight it reports `Math.floor(p * 100)`. -/
def progressCallback (p : ℚ) (st : CompState) : CompState :=
  if st.pendingRuns = 0 then st
  else { st with progress := progressValue p }

/-- The filename transformation of `handleDownload` (line 239):
`name.replace(/\.[^/.]+$/, '')` — the final dot and extension are
stripped exactly when the name ends in a dot followed by one or more
characters none of which is a dot or a slash. -/
def stripExt (n : String) : String :=
  let r := n.data.reverse
  let ext := r.takeWhile (fun c => c ≠ '.' ∧ c ≠ '/')
  match r.drop ext.length with
  | '.' :: rest => if ext.isEmpty then n else String.mk rest.reverse
  | _ => n

/-- The download filename (line 239): `processed_<stripped name>.png`. -/
def downloadName (n : String) : String :=
  "processed_" ++ stripExt n ++ ".png"

/-- `handleDownload` (lines 232-252): guarded by
`if (!image?.processed || !image.name) return`; creates an object URL for
the processed blob, triggers the anchor click, and revokes the URL.  It
never calls a state setter. -/
def handleDownload (st : CompState) : CompState :=
  match st.image with
  | none => st
  | some img =>
      if img.processed.isNone ∨ img.name = "" then st
      else
        let p := createObjectURL st
        revokeObjectURL p.1 p.2

/-- `handleDelete` (lines 254-301): guarded by `if (!image) return`; else
stops processing, revokes both of the session's object URLs, clears the
timer, resets every state hook, clears the file input, and reports
success; the `setImage(null)` schedules the effect teardown over the old
image. -/
def handleDelete (st : CompState) : CompState :=
  match st.image with
  | none => st
  | some img =>
      let sta := revokeObjectURL img.originalUrl
        { st with isProcessing := false }
      let stb :=
        match img.processedUrl with
        | some u => revokeObjectURL u sta
        | none => sta
      let stc := { stb with
        timerActive := false, image := none,
        progress := 0, timeLeft := 0, isDragging := false,
        fileInputVal := "",
        out := ToastMsg.deleteSuccess :: stb.out }
      cleanup (some img) stc

/-- `handleDragOver` (lines 303-306). -/
def handleDragOver (st : CompState) : CompState :=
  { st with isDragging := true }

/-- `handleDragLeave` (lines 308-311). -/
def handleDragLeave (st : CompState) : CompState :=
  { st with isDragging := false }

/-- The events the component reacts to: a file selection (with the
compression outcome), a drop (same path, clearing the drag flag first),
a process click, the continuation of an awaited segmentation call, a
progress callback, a countdown tick, drag events, a download click and a
delete click. -/
inductive Event where
  | upload (f : FileV) (comp : Option FileV)
  | drop (f : FileV) (comp : Option FileV)
  | processStart
  | processEnd (ok : Bool)
  | progressReport (p : ℚ)
  | tick
  | dragOver
  | dragLeave
  | download
  | delete

/-- The transition function: one event, one transition. -/
def step (st : CompState) : Event → CompState
  | Event.upload f comp => handleFileChange f comp st
  | Event.drop f comp => handleFileChange f comp (handleDragLeave st)
  | Event.processStart => handleProcess st
  | Event.processEnd ok => handleProcessEnd ok st
  | Event.progressReport p => progressCallback p st
  | Event.tick => tickTimer st
  | Event.dragOver => handleDragOver st
  | Event.dragLeave => handleDragLeave st
  | Event.download => handleDownload st
  | Event.delete => handleDelete st

/-- The state reached from `init` by a list of events. -/
def run (es : List Event) : CompState := es.foldl step init

/-- Spec-side stem, following the claim's words for the download
filename: the final extension is "the part after the last dot", so the
stem is everything before the last dot when the name contains one, and
the whole name otherwise.  To be compared with `stripExt`, which embeds
the source's regex replacement. -/
def specStem (n : String) : String :=
  if n.data.contains '.' then
    String.mk ((n.data.reverse.dropWhile (fun c => c ≠ '.')).tail.reverse)
  else n

/-- Spec-side download filename: `processed_<original-stem>.png` with the
stem as the claim describes it. -/
def specDownloadName (n : String) : String :=
  "processed_" ++ specStem n ++ ".png"

/-- The session invariant relating `processedUrl` and `status` that the
code actually maintains: a non-null `processedUrl` can accompany status
`completed` or status `failed` (the failure handler keeps a previous
run's result), and status `completed` always has a `processedUrl`. -/
def statusInv (st : CompState) : Prop :=
  ∀ img, st.image = some img →
    (img.status = Status.completed → img.processedUrl.isSome = true) ∧
    (img.processedUrl.isSome = true →
      img.status = Status.completed ∨ img.status = Status.failed)

/-- URL identifiers appearing in the state are below the allocator
counter: the freshness invariant of `createObjectURL`. -/
def urlBound (st : CompState) : Prop :=
  (∀ img, st.image = some img →
    img.originalUrl < st.nextUrl ∧
    ∀ u, img.processedUrl = some u → u < st.nextUrl) ∧
  (∀ u ∈ st.live, u < st.nextUrl)

/-- A 2 MB JPEG candidate file. -/
def wFile : FileV := { name := "photo.jpg", type := "image/jpeg", size := 2000000 }

/-- The compressed output for `wFile`. -/
def wComp : FileV := { name := "photo.jpg", type := "image/jpeg", size := 900000 }

/-- A candidate file with a disallowed MIME type. -/
def wGif : FileV := { name := "bad.gif", type := "image/gif", size := 5 }

/-- A valid PNG candidate whose size is exactly 10 MiB. -/
def wExact : FileV := { name := "a.png", type := "image/png", size := 10485760 }

/-- A state with one pending segmentation call. -/
def wPending : CompState := { init with pendingRuns := 1 }

/-- A valid PNG candidate one byte over the 10 MiB limit. -/
def wBig : FileV := { name := "big.png", type := "image/png", size := 10485761 }

/-- A state in which a processing run is in flight. -/
def wProcessing : CompState := { init with isProcessing := true }

/-- Upload, start processing, delete mid-flight, upload again, start
processing again: the first external call is still pending when the
second starts. -/
def trTwoRuns : List Event :=
  [Event.upload wFile (some wComp), Event.processStart, Event.delete,
   Event.upload wFile (some wComp), Event.processStart]

/-- A single successful upload. -/
def trOne : List Event := [Event.upload wFile (some wComp)]

/-- The session created by `trOne`. -/
def wSession : ProcessedImage :=
  { original := some wComp, originalUrl := 1, processed := none,
    processedUrl := none, name := "photo.jpg", status := Status.pending }

/-- Upload then start processing: one segmentation call in flight. -/
def stC5 : CompState := run [Event.upload wFile (some wComp), Event.processStart]

/-- A complete successful run. -/
def trCompleted : List Event :=
  [Event.upload wFile (some wComp), Event.processStart, Event.processEnd true]

/-- The completed session reached by `trCompleted`. -/
def wCompleted : ProcessedImage :=
  { original := some wComp, originalUrl := 1,
    processed := some { type := "image/png" }, processedUrl := some 2,
    name := "photo.jpg", status := Status.completed }

/-- A successful run followed by a failing re-run on the same session. -/
def trStaleResult : List Event :=
  [Event.upload wFile (some wComp), Event.processStart, Event.processEnd true,
   Event.processStart, Event.processEnd false]

/-- An upload that is rejected for its MIME type: afterwards no session
exists but the file input still holds the picked name. -/
def stNoSession : CompState := run [Event.upload wGif none]

/-! ### Helper lemmas -/

theorem cleanup_image (img : Option ProcessedImage) (st : CompState) :
    (cleanup img st).image = st.image := by
  unfold cleanup revokeObjectURL
  cases img with
  | none => rfl
  | some i =>
      obtain ⟨o, ou, p, pu, nm, s⟩ := i
      cases pu <;> rfl

theorem cleanup_out (img : Option ProcessedImage) (st : CompState) :
    (cleanup img st).out = st.out := by
  unfold cleanup revokeObjectURL
  cases img with
  | none => rfl
  | some i =>
      obtain ⟨o, ou, p, pu, nm, s⟩ := i
      cases pu <;> rfl

theorem cleanup_pendingRuns (img : Option ProcessedImage) (st : CompState) :
    (cleanup img st).pendingRuns = st.pendingRuns := by
  unfold cleanup revokeObjectURL
  cases img with
  | none => rfl
  | some i =>
      obtain ⟨o, ou, p, pu, nm, s⟩ := i
      cases pu <;> rfl

theorem cleanup_nextUrl (img : Option ProcessedImage) (st : CompState) :
    (cleanup img st).nextUrl = st.nextUrl := by
  unfold cleanup revokeObjectURL
  cases img with
  | none => rfl
  | some i =>
      obtain ⟨o, ou, p, pu, nm, s⟩ := i
      cases pu <;> rfl

theorem cleanup_fileInputVal (img : Option ProcessedImage) (st : CompState) :
    (cleanup img st).fileInputVal = st.fileInputVal := by
  unfold cleanup revokeObjectURL
  cases img with
  | none => rfl
  | some i =>
      obtain ⟨o, ou, p, pu, nm, s⟩ := i
      cases pu <;> rfl

theorem cleanup_isDragging (img : Option ProcessedImage) (st : CompState) :
    (cleanup img st).isDragging = st.isDragging := by
  unfold cleanup revokeObjectURL
  cases img with
  | none => rfl
  | some i =>
      obtain ⟨o, ou, p, pu, nm, s⟩ := i
      cases pu <;> rfl

theorem cleanup_resets (img : Option ProcessedImage) (st : CompState) :
    (cleanup img st).isProcessing = false ∧ (cleanup img st).progress = 0 ∧
    (cleanup img st).timeLeft = 0 ∧ (cleanup img st).timerActive = false := by
  unfold cleanup revokeObjectURL
  cases img with
  | none => exact ⟨rfl, rfl, rfl, rfl⟩
  | some i =>
      obtain ⟨o, ou, p, pu, nm, s⟩ := i
      cases pu <;> exact ⟨rfl, rfl, rfl, rfl⟩

theorem mem_cleanup_live (prev : ProcessedImage) (st : CompState) (u : Nat) :
    u ∈ (cleanup (some prev) st).live ↔
      u ∈ st.live ∧ u ≠ prev.originalUrl ∧
        ∀ pu, prev.processedUrl = some pu → u ≠ pu := by
  unfold cleanup revokeObjectURL
  obtain ⟨o, ou, p, pu, nm, s⟩ := prev
  cases pu with
  | none => simp [List.mem_filter, and_assoc]
  | some v =>
      simp only [List.mem_filter, decide_eq_true_eq]
      constructor
      · rintro ⟨⟨hu, h1⟩, h2⟩
        exact ⟨hu, h1, fun x hx => by cases hx; exact h2⟩
      · rintro ⟨hu, h1, h2⟩
        exact ⟨⟨hu, h1⟩, h2 v rfl⟩

/-! ### Claim C6 -/

/-- Claim C6: for every candidate file whose MIME type is not one of
`image/jpeg`, `image/png`, `image/webp`, upload is rejected with the
`InvalidType` error and no session is created: the handler only stores
the picked name in the input control and emits the error toast; `image`
and every other field are untouched. -/
theorem upload_invalidType_rejected (st : CompState) (f : FileV)
    (comp : Option FileV) (h : f.type ∉ SETTINGS.types) :
    step st (Event.upload f comp) =
      { st with fileInputVal := f.name, out := ToastMsg.invalidType :: st.out } := by
  simp [step, handleFileChange, h]

theorem c6_witness :
    wGif.type ∉ SETTINGS.types ∧
    step init (Event.upload wGif none) =
      { init with fileInputVal := wGif.name,
                  out := ToastMsg.invalidType :: init.out } :=
  ⟨by decide, upload_invalidType_rejected init wGif none (by decide)⟩

/-! ### Claim C3 -/

/-- Claim C3 as stated is false at the boundary: a valid PNG of exactly
10 MiB (10485760 bytes) is not rejected — the check is strict
(`file.size > SETTINGS.upload.maxSize`) — and a session is created. -/
theorem c3_counterexample :
    (run [Event.upload wExact (some wComp)]).image.isSome = true ∧
    ToastMsg.tooLarge ∉ (run [Event.upload wExact (some wComp)]).out := by
  decide

/-- Claim C3 (amended): for every candidate file with an allowed MIME
type whose byte size strictly exceeds 10 MiB, upload is rejected with
`TooLarge` and no session is created; a file of exactly 10 MiB passes
the size check. -/
theorem upload_tooLarge_over_limit (st : CompState) (f : FileV)
    (comp : Option FileV) (ht : f.type ∈ SETTINGS.types)
    (hs : SETTINGS.maxSize < f.size) :
    step st (Event.upload f comp) =
      { st with fileInputVal := f.name, out := ToastMsg.tooLarge :: st.out } := by
  simp [step, handleFileChange, ht, hs]

theorem c3_witness :
    wBig.type ∈ SETTINGS.types ∧ SETTINGS.maxSize < wBig.size ∧
    step init (Event.upload wBig none) =
      { init with fileInputVal := wBig.name,
                  out := ToastMsg.tooLarge :: init.out } :=
  ⟨by decide, by decide, upload_tooLarge_over_limit init wBig none (by decide) (by decide)⟩

/-! ### Claim C10 -/

/-- Claim C10: whenever upload validation rejects a candidate
(disallowed MIME type, size over the strict limit, or a compression
failure), the existing session and every other piece of component state
— the live URL set, processing flag, progress, countdown, timer and
pending runs — are left unchanged; the rejection is atomic with respect
to the session. -/
theorem rejected_upload_preserves_session (st : CompState) (f : FileV)
    (comp : Option FileV)
    (h : f.type ∉ SETTINGS.types ∨ SETTINGS.maxSize < f.size ∨ comp = none) :
    (step st (Event.upload f comp)).image = st.image ∧
    (step st (Event.upload f comp)).live = st.live ∧
    (step st (Event.upload f comp)).isProcessing = st.isProcessing ∧
    (step st (Event.upload f comp)).progress = st.progress ∧
    (step st (Event.upload f comp)).timeLeft = st.timeLeft ∧
    (step st (Event.upload f comp)).timerActive = st.timerActive ∧
    (step st (Event.upload f comp)).pendingRuns = st.pendingRuns ∧
    (step st (Event.upload f comp)).nextUrl = st.nextUrl := by
  rcases h with h | h | h
  · simp [step, handleFileChange, h]
  · by_cases ht : f.type ∈ SETTINGS.types
    · simp [step, handleFileChange, ht, h]
    · simp [step, handleFileChange, ht]
  · subst h
    by_cases ht : f.type ∈ SETTINGS.types
    · by_cases hs : SETTINGS.maxSize < f.size
      · simp [step, handleFileChange, ht, hs]
      · simp [step, handleFileChange, ht, hs]
    · simp [step, handleFileChange, ht]

theorem c10_witness :
    (wGif.type ∉ SETTINGS.types ∨ SETTINGS.maxSize < wGif.size ∨
      (none : Option FileV) = none) ∧
    (step wPending (Event.upload wGif none)).image = wPending.image ∧
    (step wPending (Event.upload wGif none)).live = wPending.live ∧
    (step wPending (Event.upload wGif none)).isProcessing = wPending.isProcessing ∧
    (step wPending (Event.upload wGif none)).progress = wPending.progress ∧
    (step wPending (Event.upload wGif none)).timeLeft = wPending.timeLeft ∧
    (step wPending (Event.upload wGif none)).timerActive = wPending.timerActive ∧
    (step wPending (Event.upload wGif none)).pendingRuns = wPending.pendingRuns ∧
    (step wPending (Event.upload wGif none)).nextUrl = wPending.nextUrl :=
  ⟨Or.inl (by decide),
   rejected_upload_preserves_session wPending wGif none (Or.inl (by decide))⟩

/-! ### Claim C7 -/

/-- Claim C7 as stated is false in its universal part: the code never has
two runs guarded by `isProcessing`, but deleting mid-flight clears
`isProcessing` without cancelling the awaited external call, so an
upload followed by a new process click starts a second concurrent
segmentation call: two runs are pending at once. -/
theorem c7_counterexample : (run trTwoRuns).pendingRuns = 2 := by decide

/-- Claim C7 (amended): while `isProcessing` is true a new processing
request is ignored — the handler returns without any state change and
without starting another run; however two external calls can still be in
flight after a mid-flight delete followed by a fresh upload and process
request. -/
theorem process_request_ignored_while_processing (st : CompState)
    (h : st.isProcessing = true) : step st Event.processStart = st := by
  simp only [step]
  unfold handleProcess
  cases him : st.image with
  | none => rfl
  | some img => simp [h]

theorem c7_witness :
    wProcessing.isProcessing = true ∧
    step wProcessing Event.processStart = wProcessing :=
  ⟨rfl, process_request_ignored_while_processing wProcessing rfl⟩

/-! ### Claim C9 -/

/-- Claim C9: for every progress value `p` in `[0,1]` supplied by the
segmentation capability, the reported percentage is
`Math.floor(p * 100)`, an integer between 0 and 100; for non-decreasing
inputs the reported percentages are non-decreasing; and while a call is
in flight, the callback stores exactly this value in `progress`. -/
theorem progress_percentage_floor (p q : ℚ) (st : CompState)
    (h0 : 0 ≤ p) (h1 : p ≤ 1) :
    0 ≤ progressValue p ∧ progressValue p ≤ 100 ∧
    (p ≤ q → progressValue p ≤ progressValue q) ∧
    (st.pendingRuns ≠ 0 →
      (step st (Event.progressReport p)).progress = progressValue p) := by
  refine ⟨?_, ?_, ?_, ?_⟩
  · exact Int.le_floor.mpr (by push_cast; positivity)
  · have h2 : p * 100 ≤ 100 := by nlinarith
    have h3 : ⌊p * 100⌋ ≤ ⌊(100 : ℚ)⌋ := Int.floor_mono h2
    simpa using h3
  · intro hpq
    have h2 : p * 100 ≤ q * 100 := by nlinarith
    exact Int.floor_mono h2
  · intro hp
    simp [step, progressCallback, hp]

theorem c9_witness :
    0 ≤ progressValue (1/2) ∧ progressValue (1/2) ≤ 100 ∧
    progressValue (1/2) ≤ progressValue (3/4) ∧
    (step wPending (Event.progressReport (1/2))).progress = progressValue (1/2) := by
  have h := progress_percentage_floor (1/2) (3/4) wPending (by norm_num) (by norm_num)
  exact ⟨h.1, h.2.1, h.2.2.1 (by norm_num), h.2.2.2 (by decide)⟩

theorem handleProcess_starts (st : CompState) (img : ProcessedImage)
    (fo : FileV) (him : st.image = some img) (ho : img.original = some fo)
    (hip : st.isProcessing = false) :
    (handleProcess st).pendingRuns = st.pendingRuns + 1 := by
  unfold handleProcess
  rw [him]
  simp [ho, hip]

/-! ### Claim C5 -/

/-- Claim C5: if the external segmentation capability throws during
processing of an existing session, afterwards the session's status is
`failed`, progress and the countdown are reset to 0, the timer is
cancelled, an error toast is surfaced, and the session is otherwise
unchanged — in particular its original bytes (`original`) and its
original object URL field are intact — so that a new processing request
immediately starts a fresh run. -/
theorem processing_failure_resets (st : CompState) (img : ProcessedImage)
    (fo : FileV) (him : st.image = some img) (hp : st.pendingRuns ≠ 0)
    (ho : img.original = some fo) :
    (step st (Event.processEnd false)).image =
      some { img with status := Status.failed } ∧
    (step st (Event.processEnd false)).progress = 0 ∧
    (step st (Event.processEnd false)).timeLeft = 0 ∧
    (step st (Event.processEnd false)).timerActive = false ∧
    (step st (Event.processEnd false)).isProcessing = false ∧
    (step st (Event.processEnd false)).out = ToastMsg.processFailed :: st.out ∧
    (step (step st (Event.processEnd false)) Event.processStart).pendingRuns =
      (step st (Event.processEnd false)).pendingRuns + 1 := by
  have key : step st (Event.processEnd false) =
      cleanup (some img)
        { st with pendingRuns := st.pendingRuns - 1, timerActive := false,
                  timeLeft := 0, progress := 0,
                  image := some { img with status := Status.failed },
                  isProcessing := false,
                  out := ToastMsg.processFailed :: st.out } := by
    simp only [step]
    unfold handleProcessEnd
    rw [if_neg hp]
    simp [him]
  rw [key]
  have hres := cleanup_resets (some img)
    { st with pendingRuns := st.pendingRuns - 1, timerActive := false,
              timeLeft := 0, progress := 0,
              image := some { img with status := Status.failed },
              isProcessing := false,
              out := ToastMsg.processFailed :: st.out }
  refine ⟨?_, hres.2.1, hres.2.2.1, hres.2.2.2, hres.1, ?_, ?_⟩
  · rw [cleanup_image]
  · rw [cleanup_out]
  · simp only [step]
    exact handleProcess_starts _ { img with status := Status.failed } fo
      (by rw [cleanup_image]) ho hres.1

/-! ### Branch equations for the handlers -/

theorem cleanup_none_eq (st : CompState) :
    cleanup none st =
      { st with timerActive := false, progress := 0, timeLeft := 0,
                isProcessing := false } := rfl

theorem mem_cleanup_live_sub (img : Option ProcessedImage) (st : CompState)
    (u : Nat) (hu : u ∈ (cleanup img st).live) : u ∈ st.live := by
  cases img with
  | none => exact hu
  | some prev => exact ((mem_cleanup_live prev st u).mp hu).1

theorem handleFileChange_accept_eq (f cf : FileV) (st : CompState)
    (ht : f.type ∈ SETTINGS.types) (hs : ¬ SETTINGS.maxSize < f.size) :
    handleFileChange f (some cf) st =
      cleanup st.image
        { st with fileInputVal := f.name, nextUrl := st.nextUrl + 1,
                  live := st.nextUrl :: st.live,
                  image := some
                    { original := some cf, originalUrl := st.nextUrl,
                      processed := none, processedUrl := none,
                      name := f.name, status := Status.pending } } := by
  unfold handleFileChange
  rw [if_pos ht, if_neg hs]
  simp [createObjectURL]

theorem handleProcess_cases (st : CompState) :
    handleProcess st = st ∨
    handleProcess st =
      { st with isProcessing := true, progress := 0, timeLeft := 20,
                timerActive := true, pendingRuns := st.pendingRuns + 1 } := by
  unfold handleProcess
  cases st.image with
  | none => exact Or.inl rfl
  | some img =>
      by_cases hc : img.original = none ∨ st.isProcessing = true
      · exact Or.inl (by simp [hc])
      · exact Or.inr (by simp [hc])

theorem handleProcessEnd_zero (ok : Bool) (st : CompState)
    (hp : st.pendingRuns = 0) : handleProcessEnd ok st = st := by
  unfold handleProcessEnd
  rw [if_pos hp]

theorem handleProcessEnd_true_none_eq (st : CompState)
    (hp : st.pendingRuns ≠ 0) (him : st.image = none) :
    handleProcessEnd true st =
      { st with pendingRuns := st.pendingRuns - 1, nextUrl := st.nextUrl + 1,
                live := st.nextUrl :: st.live, isProcessing := false,
                timeLeft := 0, progress := 0, timerActive := false,
                out := ToastMsg.processSuccess :: st.out } := by
  unfold handleProcessEnd
  rw [if_neg hp]
  simp [him, createObjectURL]

theorem handleProcessEnd_false_none_eq (st : CompState)
    (hp : st.pendingRuns ≠ 0) (him : st.image = none) :
    handleProcessEnd false st =
      { st with pendingRuns := st.pendingRuns - 1, timerActive := false,
                timeLeft := 0, progress := 0, isProcessing := false,
                out := ToastMsg.processFailed :: st.out } := by
  unfold handleProcessEnd
  rw [if_neg hp]
  simp [him]

theorem handleProcessEnd_true_eq (st : CompState) (prev : ProcessedImage)
    (hp : st.pendingRuns ≠ 0) (him : st.image = some prev) :
    handleProcessEnd true st =
      cleanup (some prev)
        { st with pendingRuns := st.pendingRuns - 1,
                  nextUrl := st.nextUrl + 1,
                  live := (match prev.processedUrl with
                    | some pu =>
                        (st.nextUrl :: st.live).filter (fun v => v ≠ pu)
                    | none => st.nextUrl :: st.live),
                  image := some
                    { prev with processed := some { type := SETTINGS.format },
                                processedUrl := some st.nextUrl,
                                status := Status.completed },
                  isProcessing := false, timeLeft := 0, progress := 0,
                  timerActive := false,
                  out := ToastMsg.processSuccess :: st.out } := by
  unfold handleProcessEnd
  rw [if_neg hp]
  cases hpu : prev.processedUrl with
  | none => simp [him, hpu, createObjectURL, revokeObjectURL]
  | some pu => simp [him, hpu, createObjectURL, revokeObjectURL]

theorem handleProcessEnd_false_eq (st : CompState) (prev : ProcessedImage)
    (hp : st.pendingRuns ≠ 0) (him : st.image = some prev) :
    handleProcessEnd false st =
      cleanup (some prev)
        { st with pendingRuns := st.pendingRuns - 1, timerActive := false,
                  timeLeft := 0, progress := 0,
                  image := some { prev with status := Status.failed },
                  isProcessing := false,
                  out := ToastMsg.processFailed :: st.out } := by
  unfold handleProcessEnd
  rw [if_neg hp]
  simp [him]

theorem handleDelete_some_eq (st : CompState) (img : ProcessedImage)
    (him : st.image = some img) :
    handleDelete st =
      cleanup (some img)
        { st with isProcessing := false,
                  live := (match img.processedUrl with
                    | some u =>
                        (st.live.filter (fun v => v ≠ img.originalUrl)).filter
                          (fun v => v ≠ u)
                    | none => st.live.filter (fun v => v ≠ img.originalUrl)),
                  timerActive := false, image := none, progress := 0,
                  timeLeft := 0, isDragging := false, fileInputVal := "",
                  out := ToastMsg.deleteSuccess :: st.out } := by
  unfold handleDelete
  cases hpu : img.processedUrl with
  | none => simp [him, hpu, revokeObjectURL]
  | some u => simp [him, hpu, revokeObjectURL]

theorem handleDownload_eq_cases (st : CompState) :
    handleDownload st = st ∨
    handleDownload st =
      { st with nextUrl := st.nextUrl + 1,
                live := (st.nextUrl :: st.live).filter
                  (fun v => v ≠ st.nextUrl) } := by
  unfold handleDownload
  cases him : st.image with
  | none => exact Or.inl rfl
  | some img =>
      by_cases hc : img.processed = none ∨ img.name = ""
      · exact Or.inl (by simp [hc])
      · refine Or.inr ?_
        simp [hc, him, createObjectURL, revokeObjectURL]

theorem tickTimer_parts (st : CompState) :
    (tickTimer st).image = st.image ∧ (tickTimer st).live = st.live ∧
    (tickTimer st).nextUrl = st.nextUrl := by
  unfold tickTimer
  split_ifs <;> exact ⟨rfl, rfl, rfl⟩

theorem progressCallback_parts (p : ℚ) (st : CompState) :
    (progressCallback p st).image = st.image ∧
    (progressCallback p st).live = st.live ∧
    (progressCallback p st).nextUrl = st.nextUrl := by
  unfold progressCallback
  split_ifs <;> exact ⟨rfl, rfl, rfl⟩

theorem handleDelete_none_eq (st : CompState) (him : st.image = none) :
    handleDelete st = st := by
  unfold handleDelete
  rw [him]

/-! ### The status/processedUrl invariant -/

theorem statusInv_of_image_eq {st stp : CompState} (h : statusInv st)
    (heq : stp.image = st.image) : statusInv stp := by
  intro img himg
  rw [heq] at himg
  exact h img himg

theorem statusInv_handleFileChange (f : FileV) (comp : Option FileV)
    (st : CompState) (h : statusInv st) :
    statusInv (handleFileChange f comp st) := by
  by_cases ht : f.type ∈ SETTINGS.types
  · by_cases hs : SETTINGS.maxSize < f.size
    · exact statusInv_of_image_eq h (by simp [handleFileChange, ht, hs])
    · cases comp with
      | none => exact statusInv_of_image_eq h (by simp [handleFileChange, ht, hs])
      | some cf =>
          rw [handleFileChange_accept_eq f cf st ht hs]
          intro img hi
          rw [cleanup_image] at hi
          have hi2 : some ({
              original := some cf, originalUrl := st.nextUrl,
              processed := none, processedUrl := none, name := f.name,
              status := Status.pending } : ProcessedImage) = some img := hi
          have hi3 := Option.some.inj hi2
          subst hi3
          exact ⟨fun hc => (nomatch hc), fun hc => (nomatch hc)⟩
  · exact statusInv_of_image_eq h (by simp [handleFileChange, ht])

theorem statusInv_step (st : CompState) (e : Event) (h : statusInv st) :
    statusInv (step st e) := by
  cases e with
  | upload f comp => exact statusInv_handleFileChange f comp st h
  | drop f comp =>
      exact statusInv_handleFileChange f comp (handleDragLeave st)
        (statusInv_of_image_eq h rfl)
  | processStart =>
      rcases handleProcess_cases st with hq | hq <;> simp only [step] <;> rw [hq]
      · exact h
      · exact statusInv_of_image_eq h rfl
  | processEnd ok =>
      by_cases hp : st.pendingRuns = 0
      · simp only [step]
        rw [handleProcessEnd_zero ok st hp]
        exact h
      · cases him : st.image with
        | none =>
            cases ok with
            | false =>
                simp only [step]
                rw [handleProcessEnd_false_none_eq st hp him]
                exact statusInv_of_image_eq h rfl
            | true =>
                simp only [step]
                rw [handleProcessEnd_true_none_eq st hp him]
                exact statusInv_of_image_eq h rfl
        | some prev =>
            cases ok with
            | false =>
                simp only [step]
                rw [handleProcessEnd_false_eq st prev hp him]
                intro img hi
                rw [cleanup_image] at hi
                have hi2 : some ({ prev with status := Status.failed }) =
                    some img := hi
                have hi3 := Option.some.inj hi2
                subst hi3
                exact ⟨fun hc => (nomatch hc), fun _ => Or.inr rfl⟩
            | true =>
                simp only [step]
                rw [handleProcessEnd_true_eq st prev hp him]
                intro img hi
                rw [cleanup_image] at hi
                have hi2 : some ({ prev with
                    processed := some { type := SETTINGS.format },
                    processedUrl := some st.nextUrl,
                    status := Status.completed }) = some img := hi
                have hi3 := Option.some.inj hi2
                subst hi3
                exact ⟨fun _ => rfl, fun _ => Or.inl rfl⟩
  | progressReport p => exact statusInv_of_image_eq h (progressCallback_parts p st).1
  | tick => exact statusInv_of_image_eq h (tickTimer_parts st).1
  | dragOver => exact statusInv_of_image_eq h rfl
  | dragLeave => exact statusInv_of_image_eq h rfl
  | download =>
      rcases handleDownload_eq_cases st with hq | hq <;> simp only [step] <;> rw [hq]
      · exact h
      · exact statusInv_of_image_eq h rfl
  | delete =>
      cases him : st.image with
      | none =>
          simp only [step]
          rw [handleDelete_none_eq st him]
          exact h
      | some img =>
          simp only [step]
          rw [handleDelete_some_eq st img him]
          intro img2 hi
          rw [cleanup_image] at hi
          exact Option.noConfusion hi

theorem statusInv_init : statusInv init := by
  intro img h
  simp [init] at h

theorem statusInv_foldl : ∀ (es : List Event) (st : CompState),
    statusInv st → statusInv (es.foldl step st)
  | [], _, h => h
  | e :: tl, st, h => statusInv_foldl tl (step st e) (statusInv_step st e h)

theorem statusInv_run (es : List Event) : statusInv (run es) :=
  statusInv_foldl es init statusInv_init

/-! ### The URL freshness invariant -/

theorem urlBound_of_parts {st stp : CompState} (h : urlBound st)
    (himg : stp.image = st.image) (hlive : stp.live = st.live)
    (hnext : stp.nextUrl = st.nextUrl) : urlBound stp := by
  refine ⟨fun img hi => ?_, fun u hu => ?_⟩
  · rw [himg] at hi
    rw [hnext]
    exact h.1 img hi
  · rw [hlive] at hu
    rw [hnext]
    exact h.2 u hu

theorem urlBound_alloc {st stp : CompState} (h : urlBound st)
    (himg : stp.image = st.image) (hlive : stp.live = st.nextUrl :: st.live)
    (hnext : stp.nextUrl = st.nextUrl + 1) : urlBound stp := by
  refine ⟨fun img hi => ?_, fun u hu => ?_⟩
  · rw [himg] at hi
    rw [hnext]
    obtain ⟨h1, h2⟩ := h.1 img hi
    exact ⟨Nat.lt_succ_of_lt h1, fun u hu2 => Nat.lt_succ_of_lt (h2 u hu2)⟩
  · rw [hlive] at hu
    rw [hnext]
    rcases List.mem_cons.mp hu with rfl | hu2
    · exact Nat.lt_succ_self _
    · exact Nat.lt_succ_of_lt (h.2 u hu2)

theorem urlBound_handleFileChange (f : FileV) (comp : Option FileV)
    (st : CompState) (h : urlBound st) :
    urlBound (handleFileChange f comp st) := by
  by_cases ht : f.type ∈ SETTINGS.types
  · by_cases hs : SETTINGS.maxSize < f.size
    · have heq : handleFileChange f comp st =
          { st with fileInputVal := f.name,
                    out := ToastMsg.tooLarge :: st.out } := by
        simp [handleFileChange, ht, hs]
      rw [heq]
      exact urlBound_of_parts h rfl rfl rfl
    · cases comp with
      | none =>
          have heq : handleFileChange f none st =
              { st with fileInputVal := f.name,
                        out := ToastMsg.compressionFailure :: st.out } := by
            simp [handleFileChange, ht, hs]
          rw [heq]
          exact urlBound_of_parts h rfl rfl rfl
      | some cf =>
          rw [handleFileChange_accept_eq f cf st ht hs]
          refine ⟨fun img hi => ?_, fun u hu => ?_⟩
          · rw [cleanup_image] at hi
            have hi2 : some ({
                original := some cf, originalUrl := st.nextUrl,
                processed := none, processedUrl := none, name := f.name,
                status := Status.pending } : ProcessedImage) = some img := hi
            have hi3 := Option.some.inj hi2
            subst hi3
            rw [cleanup_nextUrl]
            exact ⟨Nat.lt_succ_self _, fun u hu2 => (nomatch hu2)⟩
          · have hu2 := mem_cleanup_live_sub _ _ u hu
            rw [cleanup_nextUrl]
            rcases List.mem_cons.mp hu2 with rfl | hu3
            · exact Nat.lt_succ_self _
            · exact Nat.lt_succ_of_lt (h.2 u hu3)
  · have heq : handleFileChange f comp st =
        { st with fileInputVal := f.name,
                  out := ToastMsg.invalidType :: st.out } := by
      simp [handleFileChange, ht]
    rw [heq]
    exact urlBound_of_parts h rfl rfl rfl

theorem urlBound_step (st : CompState) (e : Event) (h : urlBound st) :
    urlBound (step st e) := by
  cases e with
  | upload f comp => exact urlBound_handleFileChange f comp st h
  | drop f comp =>
      exact urlBound_handleFileChange f comp (handleDragLeave st)
        (urlBound_of_parts h rfl rfl rfl)
  | processStart =>
      rcases handleProcess_cases st with hq | hq <;> simp only [step] <;> rw [hq]
      · exact h
      · exact urlBound_of_parts h rfl rfl rfl
  | processEnd ok =>
      by_cases hp : st.pendingRuns = 0
      · simp only [step]
        rw [handleProcessEnd_zero ok st hp]
        exact h
      · cases him : st.image with
        | none =>
            cases ok with
            | false =>
                simp only [step]
                rw [handleProcessEnd_false_none_eq st hp him]
                exact urlBound_of_parts h rfl rfl rfl
            | true =>
                simp only [step]
                rw [handleProcessEnd_true_none_eq st hp him]
                exact urlBound_alloc h rfl rfl rfl
        | some prev =>
            cases ok with
            | false =>
                simp only [step]
                rw [handleProcessEnd_false_eq st prev hp him]
                refine ⟨fun img hi => ?_, fun u hu => ?_⟩
                · rw [cleanup_image] at hi
                  have hi2 : some ({ prev with status := Status.failed }) =
                      some img := hi
                  have hi3 := Option.some.inj hi2
                  subst hi3
                  rw [cleanup_nextUrl]
                  obtain ⟨h1, h2⟩ := h.1 prev him
                  exact ⟨h1, fun u hu2 => h2 u hu2⟩
                · have hu2 := mem_cleanup_live_sub _ _ u hu
                  rw [cleanup_nextUrl]
                  exact h.2 u hu2
            | true =>
                simp only [step]
                rw [handleProcessEnd_true_eq st prev hp him]
                refine ⟨fun img hi => ?_, fun u hu => ?_⟩
                · rw [cleanup_image] at hi
                  have hi2 : some ({ prev with
                      processed := some { type := SETTINGS.format },
                      processedUrl := some st.nextUrl,
                      status := Status.completed }) = some img := hi
                  have hi3 := Option.some.inj hi2
                  subst hi3
                  rw [cleanup_nextUrl]
                  obtain ⟨h1, h2⟩ := h.1 prev him
                  refine ⟨Nat.lt_succ_of_lt h1, fun u hu2 => ?_⟩
                  have hu3 : some st.nextUrl = some u := hu2
                  obtain rfl := Option.some.inj hu3
                  exact Nat.lt_succ_self _
                · have hu2 := mem_cleanup_live_sub _ _ u hu
                  rw [cleanup_nextUrl]
                  cases hpu : prev.processedUrl with
                  | none =>
                      rw [hpu] at hu2
                      rcases List.mem_cons.mp hu2 with rfl | hu3
                      · exact Nat.lt_succ_self _
                      · exact Nat.lt_succ_of_lt (h.2 u hu3)
                  | some pu =>
                      rw [hpu] at hu2
                      have hu3 := (List.mem_filter.mp hu2).1
                      rcases List.mem_cons.mp hu3 with rfl | hu4
                      · exact Nat.lt_succ_self _
                      · exact Nat.lt_succ_of_lt (h.2 u hu4)
  | progressReport p =>
      exact urlBound_of_parts h (progressCallback_parts p st).1
        (progressCallback_parts p st).2.1 (progressCallback_parts p st).2.2
  | tick =>
      exact urlBound_of_parts h (tickTimer_parts st).1
        (tickTimer_parts st).2.1 (tickTimer_parts st).2.2
  | dragOver => exact urlBound_of_parts h rfl rfl rfl
  | dragLeave => exact urlBound_of_parts h rfl rfl rfl
  | download =>
      rcases handleDownload_eq_cases st with hq | hq <;> simp only [step] <;> rw [hq]
      · exact h
      · refine ⟨fun img hi => ?_, fun u hu => ?_⟩
        · obtain ⟨h1, h2⟩ := h.1 img hi
          exact ⟨Nat.lt_succ_of_lt h1, fun u hu2 => Nat.lt_succ_of_lt (h2 u hu2)⟩
        · have hu2 := (List.mem_filter.mp hu).1
          rcases List.mem_cons.mp hu2 with rfl | hu3
          · exact Nat.lt_succ_self _
          · exact Nat.lt_succ_of_lt (h.2 u hu3)
  | delete =>
      cases him : st.image with
      | none =>
          simp only [step]
          rw [handleDelete_none_eq st him]
          exact h
      | some img =>
          simp only [step]
          rw [handleDelete_some_eq st img him]
          refine ⟨fun img2 hi => ?_, fun u hu => ?_⟩
          · rw [cleanup_image] at hi
            exact Option.noConfusion hi
          · have hu2 := mem_cleanup_live_sub _ _ u hu
            rw [cleanup_nextUrl]
            cases hpu : img.processedUrl with
            | none =>
                rw [hpu] at hu2
                exact h.2 u (List.mem_filter.mp hu2).1
            | some pu =>
                rw [hpu] at hu2
                exact h.2 u (List.mem_filter.mp (List.mem_filter.mp hu2).1).1

theorem urlBound_init : urlBound init := by
  refine ⟨fun img h => ?_, fun u hu => ?_⟩
  · simp [init] at h
  · simp [init] at hu

theorem urlBound_foldl : ∀ (es : List Event) (st : CompState),
    urlBound st → urlBound (es.foldl step st)
  | [], _, h => h
  | e :: tl, st, h => urlBound_foldl tl (step st e) (urlBound_step st e h)

theorem urlBound_run (es : List Event) : urlBound (run es) :=
  urlBound_foldl es init urlBound_init

theorem c5_witness :
    stC5.image = some wSession ∧ stC5.pendingRuns ≠ 0 ∧
    wSession.original = some wComp ∧
    (step stC5 (Event.processEnd false)).image =
      some { wSession with status := Status.failed } ∧
    (step stC5 (Event.processEnd false)).progress = 0 ∧
    (step stC5 (Event.processEnd false)).timeLeft = 0 ∧
    (step stC5 (Event.processEnd false)).timerActive = false ∧
    (step stC5 (Event.processEnd false)).isProcessing = false ∧
    (step stC5 (Event.processEnd false)).out =
      ToastMsg.processFailed :: stC5.out ∧
    (step (step stC5 (Event.processEnd false)) Event.processStart).pendingRuns =
      (step stC5 (Event.processEnd false)).pendingRuns + 1 := by
  have h := processing_failure_resets stC5 wSession wComp (by decide) (by decide)
    (by decide)
  exact ⟨by decide, by decide, by decide, h.1, h.2.1, h.2.2.1, h.2.2.2.1,
    h.2.2.2.2.1, h.2.2.2.2.2.1, h.2.2.2.2.2.2⟩

/-! ### Claim C1 -/

/-- Claim C1 as stated is false: after a successful run a failing re-run
on the same session leaves `processedUrl` set while `status` is
`failed` — the failure handler only overwrites `status` and keeps the
previous result. -/
theorem c1_counterexample :
    (run trStaleResult).image.map ProcessedImage.status = some Status.failed ∧
    ((run trStaleResult).image.bind ProcessedImage.processedUrl).isSome = true := by
  constructor <;> decide

/-- Claim C1 (amended): for every reachable state, a session with status
`completed` has a non-null `processedUrl`, and a non-null `processedUrl`
implies status `completed` or `failed`; the claimed equivalence fails
only in the failed-after-success case, where a failing run retains the
previous run's `processedUrl` while setting status to `failed`. -/
theorem reachable_processedUrl_status (es : List Event) (img : ProcessedImage)
    (h : (run es).image = some img) :
    (img.status = Status.completed → img.processedUrl.isSome = true) ∧
    (img.processedUrl.isSome = true →
      img.status = Status.completed ∨ img.status = Status.failed) :=
  statusInv_run es img h

theorem c1_witness :
    (run trCompleted).image = some wCompleted ∧
    ((wCompleted.status = Status.completed →
        wCompleted.processedUrl.isSome = true) ∧
     (wCompleted.processedUrl.isSome = true →
        wCompleted.status = Status.completed ∨
        wCompleted.status = Status.failed)) :=
  ⟨by decide, reachable_processedUrl_status trCompleted wCompleted (by decide)⟩

/-! ### Claim C2 -/

/-- Claim C2: when an upload is accepted while a prior session exists,
the transition that installs the new session also releases the prior
session's object URLs (the scheduled effect teardown revokes them), so
after the replacement neither overwritten reference is live, the new
session is installed with a freshly allocated URL, and that fresh URL is
live. -/
theorem upload_releases_prior_handles (es : List Event) (f cf : FileV)
    (prev : ProcessedImage) (him : (run es).image = some prev)
    (ht : f.type ∈ SETTINGS.types) (hs : ¬ SETTINGS.maxSize < f.size) :
    prev.originalUrl ∉ (step (run es) (Event.upload f (some cf))).live ∧
    (∀ u, prev.processedUrl = some u →
      u ∉ (step (run es) (Event.upload f (some cf))).live) ∧
    (step (run es) (Event.upload f (some cf))).image = some ({
      original := some cf, originalUrl := (run es).nextUrl,
      processed := none, processedUrl := none, name := f.name,
      status := Status.pending } : ProcessedImage) ∧
    (run es).nextUrl ∈ (step (run es) (Event.upload f (some cf))).live := by
  have hb := urlBound_run es
  have key := handleFileChange_accept_eq f cf (run es) ht hs
  rw [him] at key
  refine ⟨?_, ?_, ?_, ?_⟩
  · simp only [step]
    rw [key]
    intro hmem
    exact ((mem_cleanup_live prev _ _).mp hmem).2.1 rfl
  · intro u hu
    simp only [step]
    rw [key]
    intro hmem
    exact ((mem_cleanup_live prev _ _).mp hmem).2.2 u hu rfl
  · simp only [step]
    rw [key, cleanup_image]
  · simp only [step]
    rw [key]
    obtain ⟨h1, h2⟩ := hb.1 prev him
    refine (mem_cleanup_live prev _ _).mpr ⟨List.mem_cons_self _ _, ?_, ?_⟩
    · exact Nat.ne_of_gt h1
    · intro pu hpu
      exact Nat.ne_of_gt (h2 pu hpu)

theorem c2_witness :
    (run trOne).image = some wSession ∧
    wFile.type ∈ SETTINGS.types ∧ ¬ SETTINGS.maxSize < wFile.size ∧
    (wSession.originalUrl ∉
        (step (run trOne) (Event.upload wFile (some wComp))).live ∧
     (∀ u, wSession.processedUrl = some u →
        u ∉ (step (run trOne) (Event.upload wFile (some wComp))).live) ∧
     (step (run trOne) (Event.upload wFile (some wComp))).image = some ({
        original := some wComp, originalUrl := (run trOne).nextUrl,
        processed := none, processedUrl := none, name := wFile.name,
        status := Status.pending } : ProcessedImage) ∧
     (run trOne).nextUrl ∈
        (step (run trOne) (Event.upload wFile (some wComp))).live) :=
  ⟨by decide, by decide, by decide,
   upload_releases_prior_handles trOne wFile wComp wSession (by decide)
     (by decide) (by decide)⟩

/-! ### Claim C4 -/

/-- Claim C4 as stated is false: with no session present, `handleDelete`
returns immediately — nothing is cleared, the file input keeps its stale
value, and no success is reported — contradicting the claimed
unconditional clearing and reporting. -/
theorem c4_counterexample :
    stNoSession.image = none ∧ stNoSession.fileInputVal = "bad.gif" ∧
    step stNoSession Event.delete = stNoSession := by
  refine ⟨by decide, by decide, by decide⟩

/-- Claim C4 (amended): when a session exists, delete clears the session,
cancels the countdown timer, releases both of the session's object URLs
(neither remains live), resets the processing flag, progress, countdown
and drag flag, clears the file input, and reports success; when no
session exists, delete is a no-op that reports nothing.  Only the deleted
session's own references are guaranteed released: URLs orphaned by a run
completing after an earlier delete are not reclaimed. -/
theorem delete_clears_session (st : CompState) :
    (st.image = none → step st Event.delete = st) ∧
    (∀ img, st.image = some img →
      (step st Event.delete).image = none ∧
      (step st Event.delete).isProcessing = false ∧
      (step st Event.delete).progress = 0 ∧
      (step st Event.delete).timeLeft = 0 ∧
      (step st Event.delete).timerActive = false ∧
      (step st Event.delete).isDragging = false ∧
      (step st Event.delete).fileInputVal = "" ∧
      (step st Event.delete).out = ToastMsg.deleteSuccess :: st.out ∧
      img.originalUrl ∉ (step st Event.delete).live ∧
      (∀ u, img.processedUrl = some u →
        u ∉ (step st Event.delete).live)) := by
  constructor
  · intro h
    simp only [step]
    exact handleDelete_none_eq st h
  · intro img him
    simp only [step]
    rw [handleDelete_some_eq st img him]
    refine ⟨by rw [cleanup_image], (cleanup_resets _ _).1, (cleanup_resets _ _).2.1,
      (cleanup_resets _ _).2.2.1, (cleanup_resets _ _).2.2.2,
      by rw [cleanup_isDragging], by rw [cleanup_fileInputVal],
      by rw [cleanup_out], ?_, ?_⟩
    · intro hmem
      exact ((mem_cleanup_live img _ _).mp hmem).2.1 rfl
    · intro u hu hmem
      exact ((mem_cleanup_live img _ _).mp hmem).2.2 u hu rfl

theorem c4_witness :
    stC5.image = some wSession ∧
    ((step stC5 Event.delete).image = none ∧
     (step stC5 Event.delete).isProcessing = false ∧
     (step stC5 Event.delete).progress = 0 ∧
     (step stC5 Event.delete).timeLeft = 0 ∧
     (step stC5 Event.delete).timerActive = false ∧
     (step stC5 Event.delete).isDragging = false ∧
     (step stC5 Event.delete).fileInputVal = "" ∧
     (step stC5 Event.delete).out = ToastMsg.deleteSuccess :: stC5.out ∧
     wSession.originalUrl ∉ (step stC5 Event.delete).live ∧
     (∀ u, wSession.processedUrl = some u →
        u ∉ (step stC5 Event.delete).live)) :=
  ⟨by decide, (delete_clears_session stC5).2 wSession (by decide)⟩

/-! ### Claim C8 -/

theorem takeWhile_all_cons_not {α : Type} (p : α → Bool) (l1 l2 : List α)
    (x : α) (h1 : ∀ a ∈ l1, p a = true) (hx : p x = false) :
    (l1 ++ x :: l2).takeWhile p = l1 := by
  induction l1 with
  | nil => simp [List.takeWhile_cons, hx]
  | cons a tl ih =>
      simp only [List.cons_append, List.takeWhile_cons,
        h1 a (List.mem_cons_self a tl), if_true]
      rw [ih (fun b hb => h1 b (List.mem_cons_of_mem a hb))]

theorem stripExt_append_ext (n e : String) (he : e.data ≠ [])
    (hc : ∀ c ∈ e.data, c ≠ '.' ∧ c ≠ '/') :
    stripExt (n ++ "." ++ e) = n := by
  have hdata : (n ++ "." ++ e).data = n.data ++ '.' :: e.data := by
    simp [String.data_append]
  have hrev : (n ++ "." ++ e).data.reverse =
      e.data.reverse ++ '.' :: n.data.reverse := by
    rw [hdata]
    simp [List.reverse_append]
  have hall : ∀ a ∈ e.data.reverse,
      (fun c => decide (c ≠ '.' ∧ c ≠ '/')) a = true := by
    intro a ha
    exact decide_eq_true (hc a (List.mem_reverse.mp ha))
  have hdot : (fun c => decide (c ≠ '.' ∧ c ≠ '/')) '.' = false := by decide
  have htake : (n ++ "." ++ e).data.reverse.takeWhile
      (fun c => decide (c ≠ '.' ∧ c ≠ '/')) = e.data.reverse := by
    rw [hrev]
    exact takeWhile_all_cons_not _ _ _ _ hall hdot
  simp only [stripExt]
  rw [htake, hrev]
  rw [List.drop_left]
  have hne : e.data.reverse.isEmpty = false := by
    cases hd : e.data.reverse with
    | nil => exact absurd (by simpa using hd) he
    | cons a tl => rfl
  simp only [hne, if_false, Bool.false_eq_true]
  rw [List.reverse_reverse]

theorem filter_ne_of_bound (l : List Nat) (nn : Nat) (hb : ∀ u ∈ l, u < nn) :
    l.filter (fun v => v ≠ nn) = l := by
  induction l with
  | nil => rfl
  | cons a tl ih =>
      rw [List.filter_cons]
      have ha : decide (a ≠ nn) = true :=
        decide_eq_true (Nat.ne_of_lt (hb a (List.mem_cons_self a tl)))
      simp only [ha, if_true, List.filter_cons]
      rw [ih (fun u hu => hb u (List.mem_cons_of_mem a hu))]

/-- Claim C8 as stated is false at a name ending in a dot: the regex
`\.[^/.]+$` needs at least one character after the dot, so `a.` is kept
whole and the saved name is `processed_a..png`, not the
`processed_a.png` that stripping "the part after the last dot" yields. -/
theorem c8_counterexample :
    downloadName "a." = "processed_a..png" ∧
    specDownloadName "a." = "processed_a.png" ∧
    downloadName "a." ≠ specDownloadName "a." := by
  refine ⟨by decide, by decide, by decide⟩

/-- Claim C8 (amended): the saved filename is `processed_<stem>.png`
where the stem strips the final dot-plus-extension exactly when the name
ends in a dot followed by at least one character none of which is a dot
or a slash — so for every name of that shape the claim's
`processed_<original-stem>.png` holds, while a name such as `a.` is kept
whole; and download mutates neither the session, nor the live references,
nor the notifications. -/
theorem download_filename_and_immutable (n e : String) (es : List Event)
    (he : e.data ≠ []) (hc : ∀ c ∈ e.data, c ≠ '.' ∧ c ≠ '/') :
    downloadName (n ++ "." ++ e) = "processed_" ++ n ++ ".png" ∧
    (step (run es) Event.download).image = (run es).image ∧
    (step (run es) Event.download).live = (run es).live ∧
    (step (run es) Event.download).out = (run es).out := by
  refine ⟨?_, ?_, ?_, ?_⟩
  · unfold downloadName
    rw [stripExt_append_ext n e he hc]
  · rcases handleDownload_eq_cases (run es) with hq | hq <;>
      simp only [step] <;> rw [hq]
  · rcases handleDownload_eq_cases (run es) with hq | hq <;>
      simp only [step] <;> rw [hq]
    have hb := urlBound_run es
    have hhead : decide ((run es).nextUrl ≠ (run es).nextUrl) = false := by simp
    show (((run es).nextUrl :: (run es).live).filter
      (fun v => v ≠ (run es).nextUrl)) = (run es).live
    rw [List.filter_cons, hhead]
    simp only [Bool.false_eq_true, if_false]
    exact filter_ne_of_bound _ _ hb.2
  · rcases handleDownload_eq_cases (run es) with hq | hq <;>
      simp only [step] <;> rw [hq]

theorem c8_witness :
    ("jpg" : String).data ≠ [] ∧
    (∀ c ∈ ("jpg" : String).data, c ≠ '.' ∧ c ≠ '/') ∧
    (downloadName ("photo" ++ "." ++ "jpg") = "processed_" ++ "photo" ++ ".png" ∧
     (step (run trOne) Event.download).image = (run trOne).image ∧
     (step (run trOne) Event.download).live = (run trOne).live ∧
     (step (run trOne) Event.download).out = (run trOne).out) :=
  ⟨by decide, by decide,
   download_filename_and_immutable "photo" "jpg" trOne (by decide) (by decide)⟩
